import Mathlib

/-!
Shallow embedding of the C-PAC configuration core.

Source files embedded here:
* `src/CPAC/utils/configuration/configuration.py` (the newer module):
  `set_from_ENV`, `Configuration._nonestr_to_None`, `Configuration.get_nested`,
  `Configuration.set_nested`, `Configuration.__getitem__`,
  `Configuration.sub_pattern`, `Configuration.check_pattern`,
  `SPECIAL_REPLACEMENT_STRINGS`.
* `src/CPAC/utils/configuration.py` (the older module): `set_from_ENV`.
* `src/CPAC/pipeline/random_state/seed.py`: `set_up_random_state`.

`update_nested_dict` (imported from `CPAC.utils.utils`) and `dct_diff`
(imported from `CPAC.utils.configuration.diff`) are not part of the given
source tree; they are modelled from the spec, as marked on their doc
comments.

Python values are embedded as the inductive type `PyVal`; Python dicts are
association lists in insertion order (Python dicts preserve insertion
order and have unique keys).  Python exceptions are modelled with
`Except PyErr`.  The process environment is a partial map
`String → Option String`.
-/

/-- Embedding of the Python values the configuration core manipulates:
`None`, booleans, integers, strings, lists, dicts (association lists in
insertion order) and sets (modelled as lists of their elements; the
deduplication a Python set performs is not modelled, which is harmless
here because no embedded function introduces duplicates that matter). -/
inductive PyVal where
  | none : PyVal
  | bool : Bool → PyVal
  | int : Int → PyVal
  | str : String → PyVal
  | list : List PyVal → PyVal
  | dict : List (String × PyVal) → PyVal
  | set : List PyVal → PyVal

/-- Nested mapping (the payload of `PyVal.dict`): the ConfigTree of the spec. -/
abbrev CTree := List (String × PyVal)

mutual
/-- Structural equality on `PyVal`, modelling Python `==` (up to the
order-insensitivity of Python dict/set comparison, which no claim needs). -/
def pyBEq : PyVal → PyVal → Bool
  | .none, .none => true
  | .bool a, .bool b => a == b
  | .int a, .int b => a == b
  | .str a, .str b => a == b
  | .list a, .list b => pyBEqL a b
  | .dict a, .dict b => pyBEqD a b
  | .set a, .set b => pyBEqL a b
  | _, _ => false
/-- Elementwise equality of value lists. -/
def pyBEqL : List PyVal → List PyVal → Bool
  | [], [] => true
  | a :: as', b :: bs => pyBEq a b && pyBEqL as' bs
  | _, _ => false
/-- Entrywise equality of association lists. -/
def pyBEqD : List (String × PyVal) → List (String × PyVal) → Bool
  | [], [] => true
  | (k, a) :: as', (k', b) :: bs => k == k' && pyBEq a b && pyBEqD as' bs
  | _, _ => false
end

mutual
theorem pyBEq_iff : ∀ a b : PyVal, pyBEq a b = true ↔ a = b
  | .none, b => by cases b <;> simp [pyBEq]
  | .bool x, b => by cases b <;> simp [pyBEq]
  | .int x, b => by cases b <;> simp [pyBEq]
  | .str x, b => by cases b <;> simp [pyBEq]
  | .list l, b => by
      cases b <;> simp [pyBEq]
      exact pyBEqL_iff l _
  | .dict d, b => by
      cases b <;> simp [pyBEq]
      exact pyBEqD_iff d _
  | .set l, b => by
      cases b <;> simp [pyBEq]
      exact pyBEqL_iff l _
theorem pyBEqL_iff : ∀ a b : List PyVal, pyBEqL a b = true ↔ a = b
  | [], b => by cases b <;> simp [pyBEqL]
  | x :: xs, b => by
      cases b with
      | nil => simp [pyBEqL]
      | cons y ys => simp [pyBEqL, pyBEq_iff x y, pyBEqL_iff xs ys]
theorem pyBEqD_iff : ∀ a b : List (String × PyVal), pyBEqD a b = true ↔ a = b
  | [], b => by cases b <;> simp [pyBEqD]
  | (k, x) :: xs, b => by
      cases b with
      | nil => simp [pyBEqD]
      | cons y ys =>
          cases y with
          | mk k' v' => simp [pyBEqD, pyBEq_iff x v', pyBEqD_iff xs ys, and_assoc]
end

instance : DecidableEq PyVal := fun a b =>
  decidable_of_iff (pyBEq a b = true) (pyBEq_iff a b)

instance {ε α : Type} [DecidableEq ε] [DecidableEq α] : DecidableEq (Except ε α) := fun a b =>
  match a, b with
  | .ok x, .ok y => decidable_of_iff (x = y) (by simp)
  | .error x, .error y => decidable_of_iff (x = y) (by simp)
  | .ok _, .error _ => isFalse (by simp)
  | .error _, .ok _ => isFalse (by simp)

/-- Lookup in a Python dict (first, and in well-formed dicts only,
occurrence of the key). -/
def lookupA : CTree → String → Option PyVal
  | [], _ => Option.none
  | (k', v') :: rest, k => if k' = k then some v' else lookupA rest k

/-- Assignment `d[k] = v` on a Python dict: replaces the value in place if
the key is present (keeping its position), appends otherwise. -/
def insertA : CTree → String → PyVal → CTree
  | [], k, v => [(k, v)]
  | (k', v') :: rest, k, v =>
      if k' = k then (k, v) :: rest else (k', v') :: insertA rest k v

/-- Process environment: a read-only partial map from names to values. -/
def Env : Type := String → Option String

/-- Character class `[A-Z\-_]` of both environment-token regexes in
`set_from_ENV` (`configuration/configuration.py` lines 487-489 and
`configuration.py` lines 297-299). -/
def isEnvChar (c : Char) : Bool := ('A' ≤ c && c ≤ 'Z') || c = '-' || c = '_'

/-- Match of one environment token starting exactly at the head of the
character list.  `true` is the braced regex `\$\x7b[A-Z\-_]*\x7d`
(pattern 1 of `set_from_ENV`); `false` is the bare regex
`\$[A-Z\-_]*(?=/|$)` (pattern 2).  Returns the token's name and the
characters after the match (a lookahead is not consumed).  The character
class excludes the closing brace, `/` and newline, so the regexes' greedy
star is exactly the maximal run of class characters. -/
def matchAt : Bool → List Char → Option (List Char × List Char)
  | true, '$' :: '{' :: rest =>
      (match rest.dropWhile isEnvChar with
       | '}' :: tail => some (rest.takeWhile isEnvChar, tail)
       | _ => Option.none)
  | false, '$' :: rest =>
      (match rest.dropWhile isEnvChar with
       | [] => some (rest.takeWhile isEnvChar, [])
       | '/' :: t => some (rest.takeWhile isEnvChar, '/' :: t)
       | _ => Option.none)
  | _, _ => Option.none

/-- Leftmost match of an environment-token pattern: `re.search`, returning
the matched token's name (the match text stripped of `$`, `\x7b`, `\x7d`,
exactly what `.lstrip('$\x7b').rstrip('\x7d')` computes on these
matches). -/
def searchP (b : Bool) : List Char → Option (List Char)
  | [] => Option.none
  | c :: cs =>
      match matchAt b (c :: cs) with
      | some p => some p.1
      | Option.none => searchP b cs

/-- Replace every non-overlapping match of an environment-token pattern by
the fixed replacement `r`, scanning left to right: `re.sub` with a
constant replacement string (replacement text is inserted literally and
not rescanned).  Fuelled for structural recursion; the fuel is the length
of the remaining input and every step consumes at least one character, so
the fuel never runs out when started at the input's length. -/
def subAllF (b : Bool) (r : List Char) : Nat → List Char → List Char
  | _, [] => []
  | 0, l => l
  | n + 1, c :: cs =>
      match matchAt b (c :: cs) with
      | some p => r ++ subAllF b r n p.2
      | Option.none => c :: subAllF b r n cs

/-- Replace every match of an environment-token pattern in `l` by `r`. -/
def subAllP (b : Bool) (r : List Char) (l : List Char) : List Char :=
  subAllF b r l.length l

/-- Replacement text for the token named `name`:
`os.environ.get(name, '$' + name)` — the environment value if the name is
set, else the unbraced literal form of the token. -/
def pyEnvGet (env : Env) (name : List Char) : List Char :=
  match env (String.mk name) with
  | some v => v.data
  | Option.none => '$' :: name

/-- One iteration of the `for _pattern in [_pattern1, _pattern2]` loop of
`set_from_ENV`: search for the pattern; when found, look the first
match's name up in the environment and substitute every match of the
pattern by that one replacement. -/
def applyPhase (env : Env) (b : Bool) (cs : List Char) : List Char :=
  match searchP b cs with
  | some name => subAllP b (pyEnvGet env name) cs
  | Option.none => cs

/-- String case of `set_from_ENV`: the braced pattern's pass, then the
bare pattern's pass on its result.  This code is character-for-character
identical in `configuration/configuration.py` (lines 483-497) and in the
older `configuration.py` (lines 293-307), so both embeddings below share
it. -/
def set_from_ENV_str (env : Env) (s : String) : String :=
  String.mk (applyPhase env false (applyPhase env true s.data))

mutual
/-- Embedding of `set_from_ENV` from
`src/CPAC/utils/configuration/configuration.py` (lines 456-497): lists
and dicts are walked recursively, strings get the two substitution
passes, every other value (including sets) is returned unchanged. -/
def set_from_ENV (env : Env) : PyVal → PyVal
  | .list items => .list (set_from_ENV_list env items)
  | .dict kvs => .dict (set_from_ENV_dict env kvs)
  | .str s => .str (set_from_ENV_str env s)
  | v => v
/-- List comprehension `[set_from_ENV(item) for item in conf]`. -/
def set_from_ENV_list (env : Env) : List PyVal → List PyVal
  | [] => []
  | v :: vs => set_from_ENV env v :: set_from_ENV_list env vs
/-- Dict comprehension `{key: set_from_ENV(conf[key]) for key in conf}`. -/
def set_from_ENV_dict (env : Env) : List (String × PyVal) → List (String × PyVal)
  | [] => []
  | (k, v) :: kvs => (k, set_from_ENV env v) :: set_from_ENV_dict env kvs
end

mutual
/-- Embedding of `set_from_ENV` from the older module
`src/CPAC/utils/configuration.py` (lines 267-307), whose body is
token-for-token identical to the newer module's function. -/
def set_from_ENV_old (env : Env) : PyVal → PyVal
  | .list items => .list (set_from_ENV_old_list env items)
  | .dict kvs => .dict (set_from_ENV_old_dict env kvs)
  | .str s => .str (set_from_ENV_str env s)
  | v => v
/-- List comprehension of the older `set_from_ENV`. -/
def set_from_ENV_old_list (env : Env) : List PyVal → List PyVal
  | [] => []
  | v :: vs => set_from_ENV_old env v :: set_from_ENV_old_list env vs
/-- Dict comprehension of the older `set_from_ENV`. -/
def set_from_ENV_old_dict (env : Env) : List (String × PyVal) → List (String × PyVal)
  | [] => []
  | (k, v) :: kvs => (k, set_from_ENV_old env v) :: set_from_ENV_old_dict env kvs
end

/-- Python `str.lower()` restricted to the character-wise case folding the
configuration strings use (ASCII suffices for the `'none'` sentinel). -/
def pyLower (s : String) : String := String.mk (s.data.map Char.toLower)

mutual
/-- Embedding of `Configuration._nonestr_to_None` from
`src/CPAC/utils/configuration/configuration.py` (lines 212-236): a string
whose lowercasing is `"none"` becomes `None`; lists, sets and dicts are
walked recursively; everything else is returned unchanged. -/
def nonestr_to_None : PyVal → PyVal
  | .str s => if pyLower s = "none" then .none else .str s
  | .list l => .list (nonestr_to_None_list l)
  | .set l => .set (nonestr_to_None_set l)
  | .dict d => .dict (nonestr_to_None_dict d)
  | v => v
/-- List comprehension of `_nonestr_to_None`. -/
def nonestr_to_None_list : List PyVal → List PyVal
  | [] => []
  | v :: vs => nonestr_to_None v :: nonestr_to_None_list vs
/-- Set comprehension of `_nonestr_to_None` (the deduplication the Python
set performs afterwards is not modelled). -/
def nonestr_to_None_set : List PyVal → List PyVal
  | [] => []
  | v :: vs => nonestr_to_None v :: nonestr_to_None_set vs
/-- Dict comprehension of `_nonestr_to_None` (keys are kept unchanged). -/
def nonestr_to_None_dict : List (String × PyVal) → List (String × PyVal)
  | [] => []
  | (k, v) :: kvs => (k, nonestr_to_None v) :: nonestr_to_None_dict kvs
end

/-- Exceptions of the embedded Python code:  `attr` is `AttributeError`
(missing Configuration attribute), `key` is `KeyError` (missing dict
key), `type` is `TypeError` (subscripting or string-replacing with an
unsupported type), `index` is `IndexError` (`keys[0]` on an empty
sequence), `value` is `ValueError`. -/
inductive PyErr where
  | attr : PyErr
  | key : PyErr
  | type : PyErr
  | index : PyErr
  | value : PyErr
deriving DecidableEq

/-- Key argument of `Configuration.get_nested` / `set_nested`: a single
string or a sequence of strings (Python accepts both lists and tuples in
the same branch, so one constructor models both). -/
inductive PyKeys where
  | str : String → PyKeys
  | list : List String → PyKeys

/-- The `if d is None: d = \x7b\x7d` normalization at the top of
`Configuration.get_nested`. -/
def noneToEmpty : PyVal → PyVal
  | .none => .dict []
  | v => v

/-- Python subscription `d[k]` with a string key: a dict lookup
(`KeyError` when absent); any non-dict raises `TypeError`. -/
def pyGetItemE : PyVal → String → Except PyErr PyVal
  | .dict kvs, k =>
      (match lookupA kvs k with
       | some v => .ok v
       | Option.none => .error .key)
  | _, _ => .error .type

/-- Embedding of `Configuration.get_nested` (lines 311-320) applied to a
list/tuple key: `d[keys[0]]` when one key remains,
`get_nested(d[keys[0]], keys[1:])` otherwise, `keys[0]` of an empty
sequence raising `IndexError`; each level first normalizes `None` to an
empty dict. -/
def get_nested_list (d : PyVal) : List String → Except PyErr PyVal
  | [] => .error .index
  | [k] => pyGetItemE (noneToEmpty d) k
  | k :: rest => do get_nested_list (← pyGetItemE (noneToEmpty d) k) rest

/-- Embedding of `Configuration.get_nested` (lines 311-320): a string key
is a single subscription, a list/tuple key recurses through the levels. -/
def get_nested (d : PyVal) : PyKeys → Except PyErr PyVal
  | .str k => pyGetItemE (noneToEmpty d) k
  | .list ks => get_nested_list d ks

/-- Embedding of `Configuration.set_nested` (lines 322-330) applied to a
list/tuple key.  `set_nested` has no `None` normalization; `d[keys[0]] =
set_nested(d[keys[0]], keys[1:], value)` first reads `d[keys[0]]`
(raising `KeyError` when the intermediate key is absent, `TypeError` when
`d` is not a dict), recurses, and writes the result back. -/
def set_nested_list (d : PyVal) : List String → PyVal → Except PyErr PyVal
  | [], _ => .error .index
  | [k], v =>
      (match d with
       | .dict kvs => .ok (.dict (insertA kvs k v))
       | _ => .error .type)
  | k :: rest, v =>
      (match d with
       | .dict kvs =>
           (match lookupA kvs k with
            | some d' => (set_nested_list d' rest v).map (fun d'' => .dict (insertA kvs k d''))
            | Option.none => .error .key)
       | _ => .error .type)

/-- Embedding of `Configuration.set_nested` (lines 322-330): a string key
is a single assignment `d[keys] = value`, a list/tuple key recurses. -/
def set_nested (d : PyVal) : PyKeys → PyVal → Except PyErr PyVal
  | .str k, v =>
      (match d with
       | .dict kvs => .ok (.dict (insertA kvs k v))
       | _ => .error .type)
  | .list ks, v => set_nested_list d ks v

/-- Attribute read `getattr(self, k)` on a Configuration whose top-level
tree is `cfg`: a missing attribute raises `AttributeError`. -/
def getattrE (cfg : CTree) (k : String) : Except PyErr PyVal :=
  match lookupA cfg k with
  | some v => .ok v
  | Option.none => .error .attr

/-- Embedding of `Configuration.__getitem__` with a list key, as invoked
by `sub_pattern`'s `self[pattern[2:-1].split('.')]`: `get_nested(self,
keys)` subscripts the Configuration itself for the first key (an
attribute read, raising `AttributeError` when absent) and ordinary dicts
below it (raising `KeyError` / `TypeError`). -/
def configGetPath (cfg : CTree) : List String → Except PyErr PyVal
  | [] => .error .index
  | [k] => getattrE cfg k
  | k :: rest => do get_nested_list (← getattrE cfg k) rest

/-- Splitting helper for the greedy regex `\$\x7b.*\x7d`: returns the
prefix of `l` up to and including the last `\x7d` of `l`, together with
the remaining suffix; `none` when `l` has no closing brace. -/
def splitLastBrace : List Char → Option (List Char × List Char)
  | [] => Option.none
  | c :: rest =>
      match splitLastBrace rest with
      | some (pre, post) => some (c :: pre, post)
      | Option.none => if c = '}' then some ([c], rest) else Option.none

/-- The matches of `re.finditer(r'\$\x7b.*\x7d', orig_key)` in
`check_pattern` (line 261-262): at each `$\x7b`, the greedy `.*` (which
does not cross a newline) extends the match to the last `\x7d` of the
current line; matches are non-overlapping, left to right.  Fuelled for
structural recursion; every step consumes at least one character, so fuel
equal to the input length never runs out. -/
def findTemplF : Nat → List Char → List (List Char)
  | _, [] => []
  | 0, _ => []
  | n + 1, '$' :: '{' :: rest =>
      (match splitLastBrace (rest.takeWhile (· ≠ '\n')) with
       | some (pre, post) =>
           ('$' :: '{' :: pre) :: findTemplF n (post ++ rest.dropWhile (· ≠ '\n'))
       | Option.none => findTemplF n ('{' :: rest))
  | n + 1, _ :: rest => findTemplF n rest

/-- All template-token matches of `check_pattern`'s `re.finditer` call. -/
def findTemplMatches (s : List Char) : List (List Char) := findTemplF s.length s

/-- Python `str.split('.')`: splits on every dot; the empty string yields
one empty group. -/
def splitOnDot : List Char → List (List Char)
  | [] => [[]]
  | '.' :: rest => [] :: splitOnDot rest
  | c :: rest =>
      match splitOnDot rest with
      | g :: gs => (c :: g) :: gs
      | [] => [[c]]

/-- Python `str.replace(pat, repl)`: replaces every non-overlapping
occurrence of `pat`, scanning left to right (all uses here have a
non-empty `pat`, so Python's empty-pattern corner case is not modelled).
Fuelled for structural recursion; every step consumes at least one
character. -/
def pyReplaceF (pat repl : List Char) : Nat → List Char → List Char
  | _, [] => []
  | 0, l => l
  | n + 1, c :: cs =>
      if pat.isPrefixOf (c :: cs) && !pat.isEmpty then
        repl ++ pyReplaceF pat repl n ((c :: cs).drop pat.length)
      else
        c :: pyReplaceF pat repl n cs

/-- Python `s.replace(pat, repl)`. -/
def pyReplace (s pat repl : List Char) : List Char := pyReplaceF pat repl s.length s

/-- Embedding of the module constant `SPECIAL_REPLACEMENT_STRINGS`
(lines 28-29): template tokens whose failed resolution is skipped without
a warning. -/
def SPECIAL_REPLACEMENT_STRINGS : List String :=
  ["${resolution_for_anat}", "${func_resolution}"]

/-- The `tags` argument of `check_pattern`: `_update_attr` passes either
nothing (so the default, the empty list) or the bare string `'FSLDIR'`.
Python's `pattern not in tags` is list membership for a list and a
substring test for a string, so both shapes are embedded. -/
inductive Tags where
  | list : List String → Tags
  | str : String → Tags

/-- Substring test `pat in s` on Python strings. -/
def strContainsSub (pat : List Char) : List Char → Bool
  | [] => pat.isEmpty
  | c :: cs => pat.isPrefixOf (c :: cs) || strContainsSub pat cs

/-- Python `pattern in tags` as evaluated by `check_pattern` (line 267):
membership for a list of tags, substring containment for a string tag. -/
def tagsContains : Tags → List Char → Bool
  | .list ts, m => ts.contains (String.mk m)
  | .str t, m => strContainsSub m t.data

/-- Embedding of `Configuration.sub_pattern` (lines 249-250):
`orig_key.replace(pattern, self[pattern[2:-1].split('.')])`.  The
configuration value is read first (`AttributeError` / `KeyError` /
`TypeError` propagate from the path lookup); `str.replace` then requires
a string replacement, raising `TypeError` otherwise. -/
def sub_pattern (cfg : CTree) (pattern : List Char) (orig : List Char) :
    Except PyErr (List Char) :=
  match configGetPath cfg ((splitOnDot ((pattern.drop 2).dropLast)).map String.mk) with
  | .ok (.str v) => .ok (pyReplace orig pattern v.data)
  | .ok _ => .error .type
  | .error e => .error e

/-- The `for i in r` loop of `check_pattern` (lines 263-273): for each
token matched on the original string (in match order), skip it when it is
empty or contained in `tags`; otherwise try `sub_pattern` on the current
string.  An `AttributeError` is caught: tokens in
`SPECIAL_REPLACEMENT_STRINGS` are skipped silently, any other failing
token is skipped with a warning (the second component collects the warned
tokens).  Every other exception propagates. -/
def applyMatches (cfg : CTree) (tags : Tags) :
    List (List Char) → List Char → Except PyErr (List Char × List String)
  | [], s => .ok (s, [])
  | m :: ms, s =>
      if m.isEmpty || tagsContains tags m then applyMatches cfg tags ms s
      else
        match sub_pattern cfg m s with
        | .ok s' => applyMatches cfg tags ms s'
        | .error .attr =>
            if SPECIAL_REPLACEMENT_STRINGS.contains (String.mk m) then
              applyMatches cfg tags ms s
            else
              (applyMatches cfg tags ms s).map (fun p => (p.1, String.mk m :: p.2))
        | .error e => .error e

mutual
/-- Embedding of `Configuration.check_pattern` (lines 252-274) against
the configuration tree `cfg`: dicts recurse with the same `tags`, lists
recurse with the default `tags` (the recursive call on line 258 passes no
`tags` argument), non-strings are returned unchanged, and strings get the
template-substitution loop.  The result carries the list of tokens warned
about; a propagated exception aborts the whole walk, modelling an
uncaught Python exception. -/
def check_pattern (cfg : CTree) (tags : Tags) :
    PyVal → Except PyErr (PyVal × List String)
  | .dict kvs =>
      (check_pattern_dict cfg tags kvs).map (fun p => (.dict p.1, p.2))
  | .list items =>
      (check_pattern_list cfg items).map (fun p => (.list p.1, p.2))
  | .str s =>
      (applyMatches cfg tags (findTemplMatches s.data) s.data).map
        (fun p => (.str (String.mk p.1), p.2))
  | v => .ok (v, [])
/-- Dict comprehension of `check_pattern` (line 256), `tags` preserved. -/
def check_pattern_dict (cfg : CTree) (tags : Tags) :
    List (String × PyVal) → Except PyErr (List (String × PyVal) × List String)
  | [] => .ok ([], [])
  | (k, v) :: kvs => do
      let p ← check_pattern cfg tags v
      let q ← check_pattern_dict cfg tags kvs
      pure ((k, p.1) :: q.1, p.2 ++ q.2)
/-- List comprehension of `check_pattern` (line 258): the recursive call
drops `tags`, so nested lists always use the default empty list. -/
def check_pattern_list (cfg : CTree) :
    List PyVal → Except PyErr (List PyVal × List String)
  | [] => .ok ([], [])
  | v :: vs => do
      let p ← check_pattern cfg (Tags.list []) v
      let q ← check_pattern_list cfg vs
      pure (p.1 :: q.1, p.2 ++ q.2)
end

/-- The fixed spatial-template attribute list of `Configuration._update_attr`
(lines 289-296); for these attributes `check_pattern` is called with
`tags='FSLDIR'` (line 301), for all others with the default. -/
def template_list : List String :=
  ["template_brain_only_for_anat",
   "template_skull_for_anat",
   "ref_mask",
   "template_brain_only_for_func",
   "template_skull_for_func",
   "template_symmetric_brain_only",
   "template_symmetric_skull",
   "dilated_symmetric_brain_mask"]

/-- Lexicographic comparison of character lists by code point, the order
Python sorts attribute names in. -/
def charListLe : List Char → List Char → Bool
  | [], _ => true
  | _ :: _, [] => false
  | c :: cs, d :: ds => if c < d then true else if d < c then false else charListLe cs ds

/-- Lexicographic order on strings. -/
def strLeB (a b : String) : Bool := charListLe a.data b.data

/-- Insertion into a sorted list of strings, for modelling `dir(self)`. -/
def strInsSorted (s : String) : List String → List String
  | [] => [s]
  | t :: ts => if strLeB s t then s :: t :: ts else t :: strInsSorted s ts

/-- Insertion sort on strings: `dir(self)` lists attribute names in
sorted order. -/
def sortStrings : List String → List String
  | [] => []
  | s :: ts => strInsSorted s (sortStrings ts)

/-- The `for attr_key, attr_value in attributes` loop of `_update_attr`
(lines 298-304): each attribute's value is passed through `check_pattern`
— with `tags='FSLDIR'` (a bare string) when the attribute's name is in
`template_list`, with the default otherwise — and written back with
`setattr`, so later attributes see earlier substitutions.  Warnings
accumulate; an uncaught exception aborts the walk. -/
def update_attr_fold (cfg : CTree) :
    List (String × PyVal) → Except PyErr (CTree × List String)
  | [] => .ok (cfg, [])
  | (k, v) :: rest => do
      let p ← check_pattern cfg
        (if template_list.contains k then Tags.str "FSLDIR" else Tags.list []) v
      let q ← update_attr_fold (insertA cfg k p.1) rest
      pure (q.1, p.2 ++ q.2)

/-- Embedding of `Configuration._update_attr` (lines 278-304): the
attribute list is the snapshot `[(attr, getattr(self, attr)) for attr in
dir(self)]`, with `dir` enumerating the attribute names in sorted order;
each is resolved by `check_pattern` and written back. -/
def update_attr (cfg : CTree) : Except PyErr (CTree × List String) :=
  update_attr_fold cfg
    ((sortStrings (cfg.map Prod.fst)).map
      (fun k => (k, (lookupA cfg k).getD PyVal.none)))

/-- Seed argument of `set_up_random_state`: the docstring admits an int,
the string `'random'`, or `None`; any other string is also representable
since callers pass user input through. -/
inductive SeedVal where
  | none : SeedVal
  | str : String → SeedVal
  | int : Int → SeedVal
deriving DecidableEq

/-- The bound `np.iinfo(np.int32).max` used by `set_up_random_state`. -/
def INT32_MAX : Int := 2147483647

/-- The test `isinstance(seed, int) and (0 < int(seed) <= np.iinfo(np.int32).max)`
of `set_up_random_state` (lines 116-119). -/
def isValidIntSeed : SeedVal → Bool
  | .int n => decide (0 < n) && decide (n ≤ INT32_MAX)
  | _ => false

/-- Python `int(seed)` as used on line 123: an int converts to itself;
`int(None)` raises `TypeError` and `int('random')` (the only string that
reaches this line, every other string having been rejected by the raise
on lines 120-121) raises `ValueError`, both caught by the surrounding
`try`. -/
def pyIntConv : SeedVal → Option Int
  | .int n => some n
  | _ => Option.none

/-- Embedding of `set_up_random_state` from
`src/CPAC/pipeline/random_state/seed.py` (lines 81-129), reduced to its
seed handling (the logging tail and the transient
`_seed['seed'] = random_random_seed()` write — which the
`except (TypeError, ValueError): _seed['seed'] = seed` handler
immediately overwrites with the string `'random'` — do not affect the
returned state).  The source's two nested `if`s raise exactly when the
seed is not `None` and (is not `'random'` and fails the int-range test),
written here as one conjunction.  Returns the final `_seed['seed']`
value, or `ValueError` for an invalid seed. -/
def set_up_random_state (seed : SeedVal) : Except PyErr SeedVal :=
  if seed ≠ SeedVal.none ∧ (seed ≠ SeedVal.str "random" ∧ isValidIntSeed seed = false) then
    .error .value
  else
    .ok (match pyIntConv seed with
         | some n => SeedVal.int n
         | Option.none => seed)

mutual
/-- Modelled from the spec: `update_nested_dict` is imported from
`CPAC.utils.utils`, which is not part of the given source tree.  Spec
section 4.2: "For each key in override: if both base and override hold a
ConfigTree at that key, recurse; otherwise the override value replaces
the base value outright ... Keys present only in base are retained
unchanged.  Result contains the union of keys from both inputs."  The
override's entries are folded onto the base in order. -/
def update_nested_dict (base : CTree) : CTree → CTree
  | [] => base
  | (k, v) :: rest =>
      update_nested_dict (insertA base k (mergeValue (lookupA base k) v)) rest
/-- Modelled from the spec: value placed at one override key — the
recursive merge when both sides hold a tree there, the override value
otherwise. -/
def mergeValue : Option PyVal → PyVal → PyVal
  | some (.dict bt), .dict ot => .dict (update_nested_dict bt ot)
  | _, v => v
end

/-- Leaf of a difference tree, tagged with provenance: a key present in
both trees with differing values carries both, a one-sided key carries
only its side's value. -/
inductive DiffEntry where
  | both : PyVal → PyVal → DiffEntry
  | leftOnly : PyVal → DiffEntry
  | rightOnly : PyVal → DiffEntry
deriving DecidableEq

/-- Node of a difference tree: a tagged leaf or a nested difference
tree. -/
inductive DiffNode where
  | entry : DiffEntry → DiffNode
  | tree : List (String × DiffNode) → DiffNode

/-- Difference tree: ConfigTree-shaped, with `DiffNode` values. -/
abbrev DTree := List (String × DiffNode)

mutual
/-- Structural equality of difference nodes. -/
def dnBEq : DiffNode → DiffNode → Bool
  | .entry a, .entry b => a == b
  | .tree a, .tree b => dnBEqD a b
  | _, _ => false
/-- Entrywise equality of difference trees. -/
def dnBEqD : List (String × DiffNode) → List (String × DiffNode) → Bool
  | [], [] => true
  | (k, a) :: as', (k', b) :: bs => k == k' && dnBEq a b && dnBEqD as' bs
  | _, _ => false
end

mutual
theorem dnBEq_iff : ∀ a b : DiffNode, dnBEq a b = true ↔ a = b
  | .entry x, b => by cases b <;> simp [dnBEq]
  | .tree t, b => by
      cases b <;> simp [dnBEq]
      exact dnBEqD_iff t _
theorem dnBEqD_iff : ∀ a b : List (String × DiffNode), dnBEqD a b = true ↔ a = b
  | [], b => by cases b <;> simp [dnBEqD]
  | (k, x) :: xs, b => by
      cases b with
      | nil => simp [dnBEqD]
      | cons y ys =>
          cases y with
          | mk k' v' => simp [dnBEqD, dnBEq_iff x v', dnBEqD_iff xs ys, and_assoc]
end

instance : DecidableEq DiffNode := fun a b =>
  decidable_of_iff (dnBEq a b = true) (dnBEq_iff a b)

/-- Lookup in a difference tree. -/
def lookupD : DTree → String → Option DiffNode
  | [], _ => Option.none
  | (k', v') :: rest, k => if k' = k then some v' else lookupD rest k

/-- Modelled from the spec (`dct_diff` is imported from
`CPAC.utils.configuration.diff`, not part of the given source tree):
the subtrahend-only part of the diff — every key of `b` absent from `a`
becomes a right-only entry. -/
def rOnly (a b : CTree) : DTree :=
  (b.filter (fun kv => (lookupA a kv.1).isNone)).map
    (fun kv => (kv.1, DiffNode.entry (DiffEntry.rightOnly kv.2)))

/-- Modelled from the spec: wrap a recursive diff under its key, omitting
the key entirely when the recursive diff is empty (the diff "contains
only keys where the two trees disagree"). -/
def dtreeEntry (k : String) (d : DTree) : DTree :=
  if d.isEmpty then [] else [(k, DiffNode.tree d)]

mutual
/-- Modelled from the spec: the minuend-driven part of the diff — walks
the entries of the first tree against the whole second tree. -/
def diffL : CTree → CTree → DTree
  | [], _ => []
  | (k, v) :: rest, b => diffOne k v b ++ diffL rest b
termination_by l _ => sizeOf l
/-- Modelled from the spec, section 4.6: one minuend key — left-only when
absent from the subtrahend; recursion when both sides hold trees; a
two-sided leaf entry when the values differ; omitted when they agree. -/
def diffOne (k : String) (v : PyVal) (b : CTree) : DTree :=
  match lookupA b k with
  | Option.none => [(k, DiffNode.entry (DiffEntry.leftOnly v))]
  | some w =>
      match v, w with
      | .dict va, .dict wa => dtreeEntry k (diffL va wa ++ rOnly va wa)
      | _, _ => if pyBEq v w then [] else [(k, DiffNode.entry (DiffEntry.both v w))]
termination_by sizeOf v
end

/-- Modelled from the spec, section 4.6: `dct_diff(minuend, subtrahend)`
— a DiffTree containing only keys where the two trees disagree, with
provenance-tagged leaves. -/
def dct_diff (a b : CTree) : DTree := diffL a b ++ rOnly a b

/-- Key-uniqueness of a list of strings (the invariant Python dict keys
satisfy by construction). -/
def strListNodup : List String → Bool
  | [] => true
  | s :: rest => !(rest.contains s) && strListNodup rest

mutual
/-- Python-dict well-formedness of a value: every dict reachable through
dicts, lists and sets has pairwise distinct keys.  Trees built from
actual Python dicts satisfy this by construction. -/
def deepNodupV : PyVal → Bool
  | .dict kvs => strListNodup (kvs.map Prod.fst) && deepNodupD kvs
  | .list l => deepNodupL l
  | .set l => deepNodupL l
  | _ => true
/-- Well-formedness of every element of a list. -/
def deepNodupL : List PyVal → Bool
  | [] => true
  | v :: vs => deepNodupV v && deepNodupL vs
/-- Well-formedness of every value of an association list. -/
def deepNodupD : List (String × PyVal) → Bool
  | [] => true
  | (_, v) :: kvs => deepNodupV v && deepNodupD kvs
end

/-- Well-formedness of a tree: `deepNodupV` of the dict it forms. -/
def deepNodupT (t : CTree) : Bool := deepNodupV (.dict t)

/-- Validity of a key path for the round-trip property (spec section
4.1): the path is non-empty, every level reached is a dict, and every
intermediate key (all but the last) is present.  The final key need not
exist, since `set_nested` creates it. -/
def validPathB : PyVal → List String → Bool
  | _, [] => false
  | .dict _, [_] => true
  | .dict kvs, k :: rest =>
      (match lookupA kvs k with
       | some d' => validPathB d' rest
       | Option.none => false)
  | _, _ => false

/-- Values the claims describe as "non-string, non-sequence, non-mapping":
`set_from_ENV` returns these unchanged (its `isinstance` chain tests only
list, dict and str; sets fall through too). -/
def passThroughV : PyVal → Bool
  | .none => true
  | .bool _ => true
  | .int _ => true
  | .set _ => true
  | _ => false

theorem takeWhile_append_of_all (p : Char → Bool) (l l' : List Char)
    (h : ∀ x ∈ l, p x) : (l ++ l').takeWhile p = l ++ l'.takeWhile p := by
  induction l with
  | nil => rfl
  | cons c cs ih =>
      simp [List.takeWhile_cons, h c (by simp),
            ih (fun x hx => h x (by simp [hx]))]

theorem dropWhile_append_of_all (p : Char → Bool) (l l' : List Char)
    (h : ∀ x ∈ l, p x) : (l ++ l').dropWhile p = l'.dropWhile p := by
  induction l with
  | nil => rfl
  | cons c cs ih =>
      simp [List.dropWhile_cons, h c (by simp),
            ih (fun x hx => h x (by simp [hx]))]

theorem takeWhile_of_all (p : Char → Bool) (l : List Char)
    (h : ∀ x ∈ l, p x) : l.takeWhile p = l := by
  have := takeWhile_append_of_all p l [] h
  simpa using this

theorem dropWhile_of_all (p : Char → Bool) (l : List Char)
    (h : ∀ x ∈ l, p x) : l.dropWhile p = [] := by
  have := dropWhile_append_of_all p l [] h
  simpa using this

theorem matchAt_ne_dollar {b : Bool} {c : Char} {cs : List Char} (h : c ≠ '$') :
    matchAt b (c :: cs) = Option.none := by
  cases b <;> (unfold matchAt; split <;> simp_all)

theorem searchP_none_of_no_dollar (b : Bool) (l : List Char)
    (h : ∀ c ∈ l, c ≠ '$') : searchP b l = Option.none := by
  induction l with
  | nil => rfl
  | cons c cs ih =>
      simp [searchP, matchAt_ne_dollar (h c (by simp)),
            ih (fun x hx => h x (by simp [hx]))]

theorem matchAt_braced (name : List Char) (h : ∀ c ∈ name, isEnvChar c) :
    matchAt true ('$' :: '{' :: (name ++ ['}'])) = some (name, []) := by
  simp only [matchAt]
  rw [dropWhile_append_of_all _ _ _ h, takeWhile_append_of_all _ _ _ h]
  simp [List.dropWhile, List.takeWhile, isEnvChar]

theorem matchAt_bare (name : List Char) (h : ∀ c ∈ name, isEnvChar c) :
    matchAt false ('$' :: name) = some (name, []) := by
  simp only [matchAt]
  rw [dropWhile_of_all _ _ h, takeWhile_of_all _ _ h]

theorem subAllP_braced (r name : List Char) (h : ∀ c ∈ name, isEnvChar c) :
    subAllP true r ('$' :: '{' :: (name ++ ['}'])) = r := by
  unfold subAllP
  have hl : ('$' :: '{' :: (name ++ ['}'])).length = (name.length + 2) + 1 := by
    simp [List.length_append]
  rw [hl]
  simp only [subAllF]
  rw [matchAt_braced name h]
  simp [subAllF]

theorem subAllP_bare (r name : List Char) (h : ∀ c ∈ name, isEnvChar c) :
    subAllP false r ('$' :: name) = r := by
  unfold subAllP
  have hl : ('$' :: name).length = name.length + 1 := by simp
  rw [hl]
  simp only [subAllF]
  rw [matchAt_bare name h]
  simp [subAllF]

theorem set_from_ENV_str_braced_unset (env : Env) (name : String)
    (h : ∀ c ∈ name.data, isEnvChar c) (hu : env name = Option.none) :
    set_from_ENV_str env (String.mk ('$' :: '{' :: (name.data ++ ['}']))) =
      String.mk ('$' :: name.data) := by
  have h1 : searchP true ('$' :: '{' :: (name.data ++ ['}'])) = some name.data := by
    simp [searchP, matchAt_braced name.data h]
  have hget : pyEnvGet env name.data = '$' :: name.data := by
    unfold pyEnvGet
    have he : String.mk name.data = name := rfl
    rw [he, hu]
  have h2 : searchP false ('$' :: name.data) = some name.data := by
    simp [searchP, matchAt_bare name.data h]
  unfold set_from_ENV_str applyPhase
  simp only [show (String.mk ('$' :: '{' :: (name.data ++ ['}']))).data
        = '$' :: '{' :: (name.data ++ ['}']) from rfl,
    h1, hget, subAllP_braced _ name.data h, h2, subAllP_bare _ name.data h]

mutual
theorem set_from_ENV_old_eq (env : Env) :
    ∀ v : PyVal, set_from_ENV_old env v = set_from_ENV env v
  | .none => rfl
  | .bool _ => rfl
  | .int _ => rfl
  | .str _ => rfl
  | .set _ => rfl
  | .list l => by
      simp [set_from_ENV_old, set_from_ENV, set_from_ENV_old_list_eq env l]
  | .dict d => by
      simp [set_from_ENV_old, set_from_ENV, set_from_ENV_old_dict_eq env d]
theorem set_from_ENV_old_list_eq (env : Env) :
    ∀ l : List PyVal, set_from_ENV_old_list env l = set_from_ENV_list env l
  | [] => rfl
  | v :: vs => by
      simp [set_from_ENV_old_list, set_from_ENV_list,
            set_from_ENV_old_eq env v, set_from_ENV_old_list_eq env vs]
theorem set_from_ENV_old_dict_eq (env : Env) :
    ∀ d : List (String × PyVal),
      set_from_ENV_old_dict env d = set_from_ENV_dict env d
  | [] => rfl
  | (k, v) :: kvs => by
      simp [set_from_ENV_old_dict, set_from_ENV_dict,
            set_from_ENV_old_eq env v, set_from_ENV_old_dict_eq env kvs]
end

/-- C10: the two `set_from_ENV` implementations — the one in the older
module `src/CPAC/utils/configuration.py` and the one in the newer module
`src/CPAC/utils/configuration/configuration.py` — compute the same
function: for every process environment and every input value, both
return equal results. -/
theorem claim_C10_env_interp_equiv (env : Env) (v : PyVal) :
    set_from_ENV_old env v = set_from_ENV env v :=
  set_from_ENV_old_eq env v

/-- Environment with every variable unset, used for the C3 analysis. -/
def envC3 : Env := fun _ => Option.none

/-- C3 counterexample: the claim predicts that in `"$\x7bAA\x7d$\x7bBB\x7d"`
with both variables unset, each token is rewritten to its own unbraced
form, giving `"$AA$BB"`; the code instead computes the replacement from
the first match's name only (`re.search`), and `re.sub` rewrites every
braced token with that one literal, giving `"$AA$AA"`. -/
theorem claim_C3_counterexample :
    set_from_ENV envC3 (.str "${AA}${BB}") = .str "$AA$AA"
    ∧ set_from_ENV envC3 (.str "${AA}${BB}") ≠ .str "$AA$BB" := by
  refine ⟨rfl, fun h => ?_⟩
  have h2 : PyVal.str "$AA$AA" = PyVal.str "$AA$BB" := h
  simp at h2

/-- C3 as amended: environment interpolation never fails (the embedding
is a total function, mirroring that the Python code raises nothing).
When the braced pass's first match names an unset variable, the computed
replacement is that name's unbraced literal form, and `re.sub` rewrites
every braced token in the string to that same literal — so a string that
is exactly one token `$\x7bVAR\x7d` with `VAR` unset becomes the literal
`$VAR`, while a string of two braced tokens whose first variable is unset
has both tokens rewritten to the first's unbraced form.  Every
non-string, non-sequence, non-mapping value is returned unchanged. -/
theorem claim_C3_amended (env : Env) (name : String)
    (hname : ∀ c ∈ name.data, isEnvChar c) (hunset : env name = Option.none)
    (hAA : env "AA" = Option.none) :
    set_from_ENV env (.str (String.mk ('$' :: '{' :: (name.data ++ ['}'])))) =
      .str (String.mk ('$' :: name.data))
    ∧ set_from_ENV env (.str "${AA}${BB}") = .str "$AA$AA"
    ∧ ∀ v : PyVal, passThroughV v = true → set_from_ENV env v = v := by
  refine ⟨?_, ?_, ?_⟩
  · show PyVal.str _ = PyVal.str _
    rw [set_from_ENV_str_braced_unset env name hname hunset]
  · show PyVal.str (set_from_ENV_str env "${AA}${BB}") = PyVal.str "$AA$AA"
    have h1 : searchP true ("${AA}${BB}".data) = some ('A' :: 'A' :: []) := rfl
    have hget : pyEnvGet env ('A' :: 'A' :: []) = '$' :: 'A' :: 'A' :: [] := by
      unfold pyEnvGet
      rw [show String.mk ('A' :: 'A' :: []) = "AA" from rfl, hAA]
    have hsub1 : subAllP true ('$' :: 'A' :: 'A' :: []) ("${AA}${BB}".data) =
        "$AA$AA".data := rfl
    have h2 : searchP false ("$AA$AA".data) = some ('A' :: 'A' :: []) := rfl
    have hsub2 : subAllP false ('$' :: 'A' :: 'A' :: []) ("$AA$AA".data) =
        "$AA$AA".data := rfl
    unfold set_from_ENV_str applyPhase
    simp only [show ("${AA}${BB}" : String).data = "${AA}${BB}".data from rfl,
      h1, hget, hsub1, h2, hsub2]
  · intro v hv
    cases v <;> simp_all [passThroughV, set_from_ENV]

/-- Witness for the amended C3: with every variable unset, the
single-token string becomes the unbraced literal, the two-token string
has both tokens rewritten to the first's unbraced form, and a set value
passes through unchanged. -/
theorem claim_C3_amended_witness :
    set_from_ENV envC3 (.str (String.mk ('$' :: '{' :: ("ENVVAR".data ++ ['}'])))) =
      .str (String.mk ('$' :: "ENVVAR".data))
    ∧ set_from_ENV envC3 (.str "${AA}${BB}") = .str "$AA$AA"
    ∧ set_from_ENV envC3 (.set [.str "${ENVVAR}"]) = .set [.str "${ENVVAR}"] :=
  ⟨(claim_C3_amended envC3 "ENVVAR" (by decide) rfl rfl).1,
   (claim_C3_amended envC3 "ENVVAR" (by decide) rfl rfl).2.1,
   (claim_C3_amended envC3 "ENVVAR" (by decide) rfl rfl).2.2 _ (by decide)⟩

/-- Environment for the C2 analysis: two variables with distinct values. -/
def envC2 : Env :=
  fun k => if k = "AA" then some "1" else if k = "BB" then some "2" else Option.none

/-- C2 counterexample: the claim predicts that in `"$\x7bAA\x7d$\x7bBB\x7d"`
each token is replaced by its own variable's value, giving `"12"`; the
code instead substitutes every match of the braced pattern with the value
of the first match's variable (`re.search` finds one name, `re.sub`
replaces all matches with it), giving `"11"`. -/
theorem claim_C2_counterexample :
    set_from_ENV envC2 (.str "${AA}${BB}") = .str "11" ∧
    set_from_ENV envC2 (.str "${AA}${BB}") ≠ .str "12" := by
  refine ⟨rfl, fun h => ?_⟩
  have h2 : PyVal.str "11" = PyVal.str "12" := h
  simp at h2

/-- C2 as amended: the pass ordering (braced tokens first, then bare
tokens followed by `/` or end of string) holds, but within one pass every
match of the pattern is replaced by the value of the first-matched
token's variable; in particular a string of two different braced tokens,
both of whose variables are set, becomes two copies of the first
variable's value. -/
theorem claim_C2_amended (env : Env) (va vb : String)
    (ha : env "AA" = some va) (hb : env "BB" = some vb)
    (hnd : ∀ c ∈ va.data, c ≠ '$') :
    set_from_ENV env (.str "${AA}${BB}") = .str (va ++ va) := by
  show PyVal.str _ = PyVal.str _
  unfold set_from_ENV_str applyPhase
  have h1 : searchP true ("${AA}${BB}".data) = some ('A' :: 'A' :: []) := rfl
  have hget : pyEnvGet env ('A' :: 'A' :: []) = va.data := by
    unfold pyEnvGet
    rw [show String.mk ('A' :: 'A' :: []) = "AA" from rfl, ha]
  have hsub : ∀ r : List Char, subAllP true r ("${AA}${BB}".data) = r ++ (r ++ []) :=
    fun r => rfl
  have hnd2 : ∀ c ∈ va.data ++ (va.data ++ []), c ≠ '$' := by
    intro c hc
    rcases List.mem_append.mp hc with h | h
    · exact hnd c h
    · exact hnd c (by simpa using h)
  have h2 : searchP false (va.data ++ (va.data ++ [])) = Option.none :=
    searchP_none_of_no_dollar false _ hnd2
  simp only [h1, hget, hsub, h2]
  have hd : va.data ++ (va.data ++ []) = (va ++ va).data := by
    rw [String.data_append]
    simp
  rw [hd]

/-- Witness for the amended C2 at concrete values. -/
theorem claim_C2_amended_witness :
    set_from_ENV envC2 (.str "${AA}${BB}") = .str ("1" ++ "1") :=
  claim_C2_amended envC2 "1" "2" rfl rfl (by decide)

/-- C9: `set_up_random_state` raises `ValueError` exactly on invalid
seeds — a seed that is not `None`, not the string `'random'`, and not an
integer in `(0, 2147483647]` — and returns normally on every valid
seed.  The embedding is a pure function of the seed, so the error, when
raised, is raised on the first call and never retried. -/
theorem claim_C9_seed_validation (seed : SeedVal) :
    set_up_random_state seed = .error PyErr.value ↔
      ¬(seed = SeedVal.none ∨ seed = SeedVal.str "random" ∨
        ∃ n : Int, seed = SeedVal.int n ∧ 0 < n ∧ n ≤ 2147483647) := by
  cases seed with
  | none => simp [set_up_random_state]
  | str s =>
      by_cases h : s = "random"
      · subst h
        simp [set_up_random_state, pyIntConv]
      · simp [set_up_random_state, isValidIntSeed, pyIntConv, h]
  | int n =>
      simp [set_up_random_state, isValidIntSeed, pyIntConv, INT32_MAX]

theorem splitLastBrace_concat (l : List Char) :
    splitLastBrace (l ++ ['}']) = some (l ++ ['}'], []) := by
  induction l with
  | nil => rfl
  | cons c cs ih => simp [splitLastBrace, ih]

theorem findTemplMatches_single (inner : List Char) (hnl : ∀ c ∈ inner, c ≠ '\n') :
    findTemplMatches ('$' :: '{' :: (inner ++ ['}'])) =
      ['$' :: '{' :: (inner ++ ['}'])] := by
  have hall : ∀ x ∈ inner ++ ['}'], (fun c => decide (c ≠ '\n')) x = true := by
    intro x hx
    rcases List.mem_append.mp hx with h | h
    · simp [hnl x h]
    · simp at h
      simp [h]
  unfold findTemplMatches
  have hl : ('$' :: '{' :: (inner ++ ['}'])).length = (inner.length + 2) + 1 := by
    simp
  rw [hl]
  simp only [findTemplF]
  rw [takeWhile_of_all _ _ hall, dropWhile_of_all _ _ hall,
      splitLastBrace_concat inner]
  simp [findTemplF]

/-- C4 as amended: during template resolution of a string holding one
token `$\x7binner\x7d`, when the dotted path's missing segment is the
first, top-level attribute segment, the lookup raises `AttributeError`,
which `check_pattern` catches: the literal token is left in place and a
warning is emitted — silently for tokens in the fixed allow-list.  But
when a deeper segment is missing (or an intermediate value is not a
mapping), the lookup raises `KeyError` (or `TypeError`), which the
`except AttributeError` clause does not catch: the exception propagates
and construction aborts. -/
theorem claim_C4_amended (cfg : CTree) (inner : List Char)
    (hnl : ∀ c ∈ inner, c ≠ '\n') :
    ((∀ k rest, (splitOnDot inner).map String.mk = k :: rest →
        lookupA cfg k = Option.none →
        configGetPath cfg ((splitOnDot inner).map String.mk) = .error .attr)
     ∧ (configGetPath cfg ((splitOnDot inner).map String.mk) = .error .attr →
        (SPECIAL_REPLACEMENT_STRINGS.contains
            (String.mk ('$' :: '{' :: (inner ++ ['}']))) = false →
          check_pattern cfg (Tags.list [])
              (.str (String.mk ('$' :: '{' :: (inner ++ ['}'])))) =
            .ok (.str (String.mk ('$' :: '{' :: (inner ++ ['}']))),
                 [String.mk ('$' :: '{' :: (inner ++ ['}']))]))
        ∧ (SPECIAL_REPLACEMENT_STRINGS.contains
            (String.mk ('$' :: '{' :: (inner ++ ['}']))) = true →
          check_pattern cfg (Tags.list [])
              (.str (String.mk ('$' :: '{' :: (inner ++ ['}'])))) =
            .ok (.str (String.mk ('$' :: '{' :: (inner ++ ['}']))), [])))
     ∧ ∀ e : PyErr, e ≠ PyErr.attr →
        configGetPath cfg ((splitOnDot inner).map String.mk) = .error e →
        check_pattern cfg (Tags.list [])
            (.str (String.mk ('$' :: '{' :: (inner ++ ['}'])))) = .error e) := by
  have hdata : (String.mk ('$' :: '{' :: (inner ++ ['}']))).data =
      '$' :: '{' :: (inner ++ ['}']) := rfl
  have hfind : findTemplMatches ('$' :: '{' :: (inner ++ ['}'])) =
      ['$' :: '{' :: (inner ++ ['}'])] := findTemplMatches_single inner hnl
  have hpath : (splitOnDot ((('$' :: '{' :: (inner ++ ['}'])).drop 2).dropLast)).map
      String.mk = (splitOnDot inner).map String.mk := by
    rw [show ('$' :: '{' :: (inner ++ ['}'])).drop 2 = inner ++ ['}'] from rfl,
        List.dropLast_concat]
  refine ⟨?_, ?_, ?_⟩
  · intro k rest hsplit hlook
    rw [hsplit]
    cases rest with
    | nil => simp [configGetPath, getattrE, hlook]
    | cons r rs =>
        simp only [configGetPath, getattrE, hlook]
        rfl
  · intro hattr
    constructor
    · intro hspec
      simp only [check_pattern, hdata, hfind, applyMatches, List.isEmpty_cons,
        tagsContains, List.contains_nil, Bool.or_self, Bool.false_eq_true,
        if_false, sub_pattern, hpath, hattr, hspec]
      rfl
    · intro hspec
      simp only [check_pattern, hdata, hfind, applyMatches, List.isEmpty_cons,
        tagsContains, List.contains_nil, Bool.or_self, Bool.false_eq_true,
        if_false, sub_pattern, hpath, hattr, hspec]
      rfl
  · intro e he hge
    cases e with
    | attr => exact absurd rfl he
    | _ =>
        simp only [check_pattern, hdata, hfind, applyMatches, List.isEmpty_cons,
          tagsContains, List.contains_nil, Bool.or_self, Bool.false_eq_true,
          if_false, sub_pattern, hpath, hge]
        rfl

/-- Configuration tree used to analyse C4: top-level attribute `a` holds
a dict without the key `b`. -/
def cfgC4 : CTree := [("a", PyVal.dict [("x", PyVal.int 1)])]

/-- C4 counterexample: for the token `$\x7ba.b\x7d`, the missing segment
`b` is a deeper nested key, not the top-level attribute; `self[['a','b']]`
raises `KeyError`, which `except AttributeError` does not catch, so
template resolution aborts instead of skipping with a warning as the
claim states. -/
theorem claim_C4_counterexample :
    check_pattern cfgC4 (Tags.list []) (PyVal.str "${a.b}") =
      Except.error PyErr.key := by decide

/-- Witness for the amended C4 at concrete inputs: a missing top-level
attribute (`q`) is skipped with a warning and the literal left in place. -/
theorem claim_C4_amended_witness :
    check_pattern cfgC4 (Tags.list [])
        (.str (String.mk ('$' :: '{' :: ("q.b".data ++ ['}'])))) =
      .ok (.str (String.mk ('$' :: '{' :: ("q.b".data ++ ['}']))),
           [String.mk ('$' :: '{' :: ("q.b".data ++ ['}']))]) :=
  ((claim_C4_amended cfgC4 "q.b".data (by decide)).2.1 (by decide)).1 (by decide)

/-- Configuration tree used to analyse C5: a resolvable `FSLDIR`
attribute and a spatial-template attribute whose value holds the token
`$\x7bFSLDIR\x7d`. -/
def cfgC5 : CTree :=
  [("FSLDIR", PyVal.str "/usr/share/fsl"),
   ("template_brain_only_for_anat", PyVal.str "${FSLDIR}/data.nii")]

/-- C5 evaluated at the failing input: `template_brain_only_for_anat` is
in the spatial-template list, `FSLDIR` is resolvable from the tree, and
`_update_attr` (which passes `tags='FSLDIR'` for template-list
attributes) substitutes the `$\x7bFSLDIR\x7d` token from the
configuration tree — the claimed exemption never fires, because
`check_pattern` asks whether the full token text `'$\x7bFSLDIR\x7d'` is a
substring of `'FSLDIR'`, which is false. -/
theorem claim_C5_code_eval :
    "template_brain_only_for_anat" ∈ template_list
    ∧ lookupA cfgC5 "FSLDIR" = some (.str "/usr/share/fsl")
    ∧ check_pattern cfgC5 (Tags.str "FSLDIR") (.str "${FSLDIR}/data.nii") =
        .ok (.str "/usr/share/fsl/data.nii", [])
    ∧ update_attr cfgC5 =
        .ok ([("FSLDIR", PyVal.str "/usr/share/fsl"),
              ("template_brain_only_for_anat", PyVal.str "/usr/share/fsl/data.nii")],
             []) := by decide

theorem lookupA_insertA_self (t : CTree) (k : String) (v : PyVal) :
    lookupA (insertA t k v) k = some v := by
  induction t with
  | nil => simp [insertA, lookupA]
  | cons kv rest ih =>
      obtain ⟨k', v'⟩ := kv
      by_cases h : k' = k
      · subst h
        simp [insertA, lookupA]
      · simp [insertA, lookupA, h, ih]

theorem lookupA_insertA_ne (t : CTree) (k j : String) (v : PyVal) (h : j ≠ k) :
    lookupA (insertA t k v) j = lookupA t j := by
  induction t with
  | nil => simp [insertA, lookupA, Ne.symm h]
  | cons kv rest ih =>
      obtain ⟨k', v'⟩ := kv
      by_cases hk : k' = k
      · subst hk
        simp [insertA, lookupA, Ne.symm h]
      · by_cases hj : k' = j
        · subst hj
          simp [insertA, lookupA, hk]
        · simp [insertA, lookupA, hk, hj, ih]

theorem set_get_roundtrip :
    ∀ (p : List String) (d : PyVal) (v : PyVal), validPathB d p = true →
      ∃ d', set_nested_list d p v = .ok d' ∧ get_nested_list d' p = .ok v := by
  intro p
  induction p with
  | nil => intro d v h; cases d <;> simp [validPathB] at h
  | cons k rest ih =>
      intro d v h
      cases d with
      | dict kvs =>
          cases rest with
          | nil =>
              refine ⟨.dict (insertA kvs k v), rfl, ?_⟩
              simp [get_nested_list, noneToEmpty, pyGetItemE, lookupA_insertA_self]
          | cons r rs =>
              cases hl : lookupA kvs k with
              | none => simp [validPathB, hl] at h
              | some d' =>
                  simp only [validPathB, hl] at h
                  obtain ⟨d'', hset, hget⟩ := ih d' v h
                  refine ⟨.dict (insertA kvs k d''), ?_, ?_⟩
                  · simp [set_nested_list, hl, hset]
                    rfl
                  · simp [get_nested_list, noneToEmpty, pyGetItemE,
                          lookupA_insertA_self, hget]
                    exact hget
      | _ => simp_all [validPathB]

/-- C6: path-addressed access round-trips — for every tree, every valid
path (non-empty, all levels dicts, intermediate keys present) and every
value, `set_nested` succeeds and a subsequent `get_nested` returns the
value just written; and a single string key behaves identically to the
one-element list (and tuple, which Python handles in the same branch)
containing it, for both get and set. -/
theorem claim_C6_roundtrip (d : PyVal) (p : List String) (v : PyVal)
    (hp : validPathB d p = true) :
    (∃ d', set_nested d (.list p) v = .ok d' ∧ get_nested d' (.list p) = .ok v)
    ∧ ∀ (t : PyVal) (k : String) (w : PyVal),
        get_nested t (.str k) = get_nested t (.list [k])
        ∧ set_nested t (.str k) w = set_nested t (.list [k]) w := by
  constructor
  · exact set_get_roundtrip p d v hp
  · intro t k w
    exact ⟨rfl, rfl⟩

/-- Tree used for the C6 witness. -/
def treeC6 : PyVal := PyVal.dict [("a", PyVal.dict [("b", PyVal.int 1)])]

/-- Witness for C6 on a two-level path. -/
theorem claim_C6_witness :
    (∃ d', set_nested treeC6 (.list ["a", "b"]) (PyVal.int 7) = .ok d'
       ∧ get_nested d' (.list ["a", "b"]) = .ok (PyVal.int 7))
    ∧ get_nested treeC6 (.str "a") = get_nested treeC6 (.list ["a"]) :=
  ⟨(claim_C6_roundtrip treeC6 ["a", "b"] (PyVal.int 7) (by decide)).1,
   ((claim_C6_roundtrip treeC6 ["a", "b"] (PyVal.int 7) (by decide)).2
      treeC6 "a" (PyVal.int 7)).1⟩

mutual
/-- No string whose lowercasing is `"none"` occurs anywhere in the value
(at any depth inside dicts, lists and sets): the postcondition of null
normalization. -/
def noNoneStrV : PyVal → Bool
  | .str s => !(pyLower s == "none")
  | .list l => noNoneStrL l
  | .set l => noNoneStrL l
  | .dict d => noNoneStrD d
  | _ => true
/-- The predicate on every element of a list. -/
def noNoneStrL : List PyVal → Bool
  | [] => true
  | v :: vs => noNoneStrV v && noNoneStrL vs
/-- The predicate on every value of an association list. -/
def noNoneStrD : List (String × PyVal) → Bool
  | [] => true
  | (_, v) :: kvs => noNoneStrV v && noNoneStrD kvs
end

mutual
theorem noNone_nonestr : ∀ v : PyVal, noNoneStrV (nonestr_to_None v) = true
  | .none => rfl
  | .bool _ => rfl
  | .int _ => rfl
  | .str s => by
      by_cases h : pyLower s = "none"
      · simp [nonestr_to_None, h, noNoneStrV]
      · simp [nonestr_to_None, h, noNoneStrV]
  | .list l => by simp [nonestr_to_None, noNoneStrV, noNone_nonestrL l]
  | .set l => by simp [nonestr_to_None, noNoneStrV, noNone_nonestrS l]
  | .dict d => by simp [nonestr_to_None, noNoneStrV, noNone_nonestrD d]
theorem noNone_nonestrL : ∀ l : List PyVal,
    noNoneStrL (nonestr_to_None_list l) = true
  | [] => rfl
  | v :: vs => by
      simp [nonestr_to_None_list, noNoneStrL, noNone_nonestr v, noNone_nonestrL vs]
theorem noNone_nonestrS : ∀ l : List PyVal,
    noNoneStrL (nonestr_to_None_set l) = true
  | [] => rfl
  | v :: vs => by
      simp [nonestr_to_None_set, noNoneStrL, noNone_nonestr v, noNone_nonestrS vs]
theorem noNone_nonestrD : ∀ d : List (String × PyVal),
    noNoneStrD (nonestr_to_None_dict d) = true
  | [] => rfl
  | (k, v) :: kvs => by
      simp [nonestr_to_None_dict, noNoneStrD, noNone_nonestr v, noNone_nonestrD kvs]
end

mutual
theorem nonestr_id_of_noNone :
    ∀ v : PyVal, noNoneStrV v = true → nonestr_to_None v = v
  | .none, _ => rfl
  | .bool _, _ => rfl
  | .int _, _ => rfl
  | .str s, h => by
      simp only [noNoneStrV, Bool.not_eq_true', beq_eq_false_iff_ne, ne_eq] at h
      simp [nonestr_to_None, h]
  | .list l, h => by
      simp only [noNoneStrV] at h
      simp [nonestr_to_None, nonestrL_id_of_noNone l h]
  | .set l, h => by
      simp only [noNoneStrV] at h
      simp [nonestr_to_None, nonestrS_id_of_noNone l h]
  | .dict d, h => by
      simp only [noNoneStrV] at h
      simp [nonestr_to_None, nonestrD_id_of_noNone d h]
theorem nonestrL_id_of_noNone :
    ∀ l : List PyVal, noNoneStrL l = true → nonestr_to_None_list l = l
  | [], _ => rfl
  | v :: vs, h => by
      simp only [noNoneStrL, Bool.and_eq_true] at h
      simp [nonestr_to_None_list, nonestr_id_of_noNone v h.1,
            nonestrL_id_of_noNone vs h.2]
theorem nonestrS_id_of_noNone :
    ∀ l : List PyVal, noNoneStrL l = true → nonestr_to_None_set l = l
  | [], _ => rfl
  | v :: vs, h => by
      simp only [noNoneStrL, Bool.and_eq_true] at h
      simp [nonestr_to_None_set, nonestr_id_of_noNone v h.1,
            nonestrS_id_of_noNone vs h.2]
theorem nonestrD_id_of_noNone :
    ∀ d : List (String × PyVal), noNoneStrD d = true → nonestr_to_None_dict d = d
  | [], _ => rfl
  | (k, v) :: kvs, h => by
      simp only [noNoneStrD, Bool.and_eq_true] at h
      simp [nonestr_to_None_dict, nonestr_id_of_noNone v h.1,
            nonestrD_id_of_noNone kvs h.2]
end

/-- C7: null normalization is idempotent; any string equal to `"none"`
under case-insensitive comparison becomes `None`, at any depth (no such
string survives in the output, and a value with no such string anywhere
is returned entirely unchanged); every other string is unchanged. -/
theorem claim_C7_nonestr (t : PyVal) (s : String) :
    nonestr_to_None (nonestr_to_None t) = nonestr_to_None t
    ∧ (pyLower s = "none" → nonestr_to_None (.str s) = PyVal.none)
    ∧ (pyLower s ≠ "none" → nonestr_to_None (.str s) = .str s)
    ∧ noNoneStrV (nonestr_to_None t) = true
    ∧ (noNoneStrV t = true → nonestr_to_None t = t) := by
  refine ⟨nonestr_id_of_noNone _ (noNone_nonestr t), ?_, ?_,
          noNone_nonestr t, nonestr_id_of_noNone t⟩
  · intro h
    simp [nonestr_to_None, h]
  · intro h
    simp [nonestr_to_None, h]

/-- Tree used for the C7 witness: `'None'` and `'NONE'` nested inside a
dict, a list and a set. -/
def treeC7 : PyVal :=
  PyVal.dict [("k", PyVal.list [PyVal.str "None",
                                PyVal.set [PyVal.str "NONE"], PyVal.int 3])]

/-- Witness for C7 at concrete values. -/
theorem claim_C7_witness :
    nonestr_to_None (nonestr_to_None treeC7) = nonestr_to_None treeC7
    ∧ nonestr_to_None (.str "NoNe") = PyVal.none
    ∧ nonestr_to_None (.str "nope") = .str "nope"
    ∧ noNoneStrV (nonestr_to_None treeC7) = true
    ∧ nonestr_to_None (PyVal.list [PyVal.int 1]) = PyVal.list [PyVal.int 1] :=
  ⟨(claim_C7_nonestr treeC7 "NoNe").1,
   (claim_C7_nonestr treeC7 "NoNe").2.1 (by decide),
   (claim_C7_nonestr treeC7 "nope").2.2.1 (by decide),
   (claim_C7_nonestr treeC7 "NoNe").2.2.2.1,
   (claim_C7_nonestr (PyVal.list [PyVal.int 1]) "x").2.2.2.2 (by decide)⟩

theorem lookupA_eq_none_of_not_contains (l : CTree) (k : String)
    (h : (l.map Prod.fst).contains k = false) : lookupA l k = Option.none := by
  induction l with
  | nil => rfl
  | cons kv rest ih =>
      obtain ⟨k', v'⟩ := kv
      simp only [List.map_cons, List.contains_cons, Bool.or_eq_false_iff,
        beq_eq_false_iff_ne, ne_eq] at h
      simp [lookupA, Ne.symm h.1, ih h.2]

theorem mergeValue_match (bv : Option PyVal) (v : PyVal) :
    (match bv, some v with
     | some (PyVal.dict bt), some (PyVal.dict ot) =>
         some (PyVal.dict (update_nested_dict bt ot))
     | _, some ov => some ov
     | b, Option.none => b) = some (mergeValue bv v) := by
  cases bv with
  | none => cases v <;> rfl
  | some b => cases b <;> cases v <;> rfl

theorem update_lookup :
    ∀ (override base : CTree) (k : String),
      strListNodup (override.map Prod.fst) = true →
      lookupA (update_nested_dict base override) k =
        (match lookupA base k, lookupA override k with
         | some (PyVal.dict bt), some (PyVal.dict ot) =>
             some (PyVal.dict (update_nested_dict bt ot))
         | _, some ov => some ov
         | bv, Option.none => bv) := by
  intro override
  induction override with
  | nil =>
      intro base k _
      simp only [update_nested_dict, lookupA]
  | cons kv rest ih =>
      obtain ⟨k', v'⟩ := kv
      intro base k hnd
      simp only [List.map_cons, strListNodup, Bool.and_eq_true,
        Bool.not_eq_true'] at hnd
      obtain ⟨hk'nin, hndrest⟩ := hnd
      simp only [update_nested_dict]
      rw [ih (insertA base k' (mergeValue (lookupA base k') v')) k hndrest]
      by_cases hkk : k' = k
      · subst hkk
        rw [lookupA_insertA_self,
            lookupA_eq_none_of_not_contains rest k' hk'nin,
            show lookupA ((k', v') :: rest) k' = some v' by simp [lookupA],
            mergeValue_match (lookupA base k') v']
        cases mergeValue (lookupA base k') v' <;> rfl
      · rw [lookupA_insertA_ne _ _ _ _ (Ne.symm hkk),
            show lookupA ((k', v') :: rest) k = lookupA rest k by
              simp [lookupA, hkk]]

/-- C1 (the merge is modelled from the spec, `update_nested_dict` not
being part of the given source tree): for every base and override tree
with well-formed (duplicate-free) override keys, the deep merge holds, at
every key, the recursive merge when both sides carry a nested tree there,
the override's value outright for every other key the override carries
(sequences included — the match puts no case between trees and other
values, so a list is replaced atomically), and the base's value unchanged
for keys only the base carries; consequently the merged key set is the
union of the two key sets. -/
theorem claim_C1_deep_merge (base override : CTree) (k : String)
    (hnd : strListNodup (override.map Prod.fst) = true) :
    lookupA (update_nested_dict base override) k =
      (match lookupA base k, lookupA override k with
       | some (PyVal.dict bt), some (PyVal.dict ot) =>
           some (PyVal.dict (update_nested_dict bt ot))
       | _, some ov => some ov
       | bv, Option.none => bv)
    ∧ (lookupA (update_nested_dict base override) k).isSome
        = ((lookupA base k).isSome || (lookupA override k).isSome) := by
  have h1 := update_lookup override base k hnd
  refine ⟨h1, ?_⟩
  rw [h1]
  cases hb : lookupA base k with
  | none =>
      cases ho : lookupA override k with
      | none => rfl
      | some ov => cases ov <;> rfl
  | some bv =>
      cases ho : lookupA override k with
      | none => cases bv <;> rfl
      | some ov => cases bv <;> cases ov <;> rfl

/-- Base tree of the spec's three-level merge example. -/
def baseC1 : CTree :=
  [("a", PyVal.dict [("b", PyVal.dict [("c", PyVal.int 1), ("d", PyVal.int 2)])]),
   ("e", PyVal.int 3)]

/-- Override tree of the spec's three-level merge example. -/
def overC1 : CTree :=
  [("a", PyVal.dict [("b", PyVal.dict [("c", PyVal.int 9)])]),
   ("f", PyVal.int 4)]

/-- Witness for C1 on the three-level example: a base-only key is kept, an
override-only key is added, and the overlapping tree key merges
recursively. -/
theorem claim_C1_witness :
    lookupA (update_nested_dict baseC1 overC1) "e" = some (PyVal.int 3)
    ∧ lookupA (update_nested_dict baseC1 overC1) "f" = some (PyVal.int 4)
    ∧ lookupA (update_nested_dict baseC1 overC1) "a" =
        some (PyVal.dict [("b", PyVal.dict [("c", PyVal.int 9),
                                            ("d", PyVal.int 2)])]) :=
  ⟨((claim_C1_deep_merge baseC1 overC1 "e" (by decide)).1).trans (by decide),
   ((claim_C1_deep_merge baseC1 overC1 "f" (by decide)).1).trans (by decide),
   ((claim_C1_deep_merge baseC1 overC1 "a" (by decide)).1).trans (by decide)⟩

theorem lookupD_append (x y : DTree) (k : String) :
    lookupD (x ++ y) k =
      (match lookupD x k with
       | some n => some n
       | Option.none => lookupD y k) := by
  induction x with
  | nil => rfl
  | cons kv rest ih =>
      obtain ⟨k', n'⟩ := kv
      by_cases h : k' = k
      · subst h
        simp [lookupD]
      · simp [lookupD, h, ih]

theorem lookupA_mem (l : CTree) (k : String) (v : PyVal)
    (h : lookupA l k = some v) : (k, v) ∈ l := by
  induction l with
  | nil => cases h
  | cons kv rest ih =>
      obtain ⟨k', v'⟩ := kv
      by_cases hk : k' = k
      · subst hk
        simp [lookupA] at h
        simp [h]
      · simp [lookupA, hk] at h
        simp [ih h]

theorem strList_contains_of_mem (l : List String) (k : String) (h : k ∈ l) :
    l.contains k = true := by
  simpa using h

theorem lookupA_of_mem_nodup (l : CTree) (k : String) (v : PyVal)
    (hnd : strListNodup (l.map Prod.fst) = true) (hm : (k, v) ∈ l) :
    lookupA l k = some v := by
  induction l with
  | nil => cases hm
  | cons kv rest ih =>
      obtain ⟨k', v'⟩ := kv
      simp only [List.map_cons, strListNodup, Bool.and_eq_true,
        Bool.not_eq_true'] at hnd
      rcases List.mem_cons.mp hm with h1 | h2
      · rw [Prod.mk.injEq] at h1
        obtain ⟨rfl, rfl⟩ := h1
        simp [lookupA]
      · have hkne : k' ≠ k := by
          intro he
          subst he
          have : k' ∈ rest.map Prod.fst := List.mem_map_of_mem Prod.fst h2
          rw [strList_contains_of_mem _ _ this] at hnd
          cases hnd.1
        simp [lookupA, hkne, ih hnd.2 h2]

theorem lookupA_none_forall (l : CTree) (k : String)
    (h : lookupA l k = Option.none) : ∀ kv ∈ l, kv.1 ≠ k := by
  induction l with
  | nil => intro kv hkv; cases hkv
  | cons kv' rest ih =>
      obtain ⟨k', v'⟩ := kv'
      by_cases hk : k' = k
      · subst hk
        simp [lookupA] at h
      · simp only [lookupA, hk, if_false] at h
        intro kv hkv
        rcases List.mem_cons.mp hkv with h1 | h2
        · subst h1
          exact hk
        · exact ih h kv h2

theorem deepNodupD_value (l : List (String × PyVal)) (k : String) (v : PyVal)
    (hd : deepNodupD l = true) (hm : (k, v) ∈ l) : deepNodupV v = true := by
  induction l with
  | nil => cases hm
  | cons kv rest ih =>
      obtain ⟨k', v'⟩ := kv
      simp only [deepNodupD, Bool.and_eq_true] at hd
      rcases List.mem_cons.mp hm with h1 | h2
      · rw [Prod.mk.injEq] at h1
        obtain ⟨rfl, rfl⟩ := h1
        exact hd.1
      · exact ih hd.2 h2

theorem lookupD_diffOne_ne (k' : String) (v : PyVal) (b : CTree) (k : String)
    (h : k' ≠ k) : lookupD (diffOne k' v b) k = Option.none := by
  unfold diffOne
  cases lookupA b k' with
  | none => simp [lookupD, h]
  | some w =>
      cases v <;> cases w <;> (try simp only [dtreeEntry]) <;> (try split) <;>
        simp [lookupD, h]

theorem lookupD_diffL_none (l b : CTree) (k : String)
    (h : ∀ kv ∈ l, kv.1 ≠ k) : lookupD (diffL l b) k = Option.none := by
  induction l with
  | nil => simp [diffL, lookupD]
  | cons kv rest ih =>
      obtain ⟨k', v'⟩ := kv
      rw [show diffL ((k', v') :: rest) b = diffOne k' v' b ++ diffL rest b
            from by rw [diffL],
          lookupD_append, lookupD_diffOne_ne k' v' b k (h (k', v') (by simp))]
      exact ih (fun kv hkv => h kv (by simp [hkv]))

theorem rOnly_none_left (a b : CTree) (k : String)
    (h : (lookupA a k).isSome = true) : lookupD (rOnly a b) k = Option.none := by
  induction b with
  | nil => rfl
  | cons kv rest ih =>
      obtain ⟨k', v'⟩ := kv
      unfold rOnly
      simp only [List.filter_cons]
      by_cases hf : (lookupA a k').isNone = true
      · simp only [hf, if_true, List.map_cons]
        have hkne : k' ≠ k := by
          intro he
          subst he
          rw [Option.isNone_iff_eq_none] at hf
          rw [hf] at h
          cases h
        simp only [lookupD, hkne, if_false]
        exact ih
      · simp only [hf, if_false]
        exact ih

theorem rOnly_none_right (a b : CTree) (k : String)
    (h : lookupA b k = Option.none) : lookupD (rOnly a b) k = Option.none := by
  have hall := lookupA_none_forall b k h
  induction b with
  | nil => rfl
  | cons kv rest ih =>
      obtain ⟨k', v'⟩ := kv
      unfold rOnly
      simp only [List.filter_cons]
      have hkne : k' ≠ k := hall (k', v') (by simp)
      by_cases hf : (lookupA a k').isNone = true
      · simp only [hf, if_true, List.map_cons, lookupD, hkne, if_false]
        exact ih (by simp [lookupA, hkne] at h; exact h)
          (fun kv hkv => hall kv (by simp [hkv]))
      · simp only [hf, if_false]
        exact ih (by simp [lookupA, hkne] at h; exact h)
          (fun kv hkv => hall kv (by simp [hkv]))

theorem rOnly_self (a b : CTree)
    (h : ∀ kv ∈ b, (lookupA a kv.1).isSome = true) : rOnly a b = [] := by
  induction b with
  | nil => rfl
  | cons kv rest ih =>
      obtain ⟨k', v'⟩ := kv
      unfold rOnly
      simp only [List.filter_cons]
      have h1 := h (k', v') (by simp)
      have h2 : (lookupA a k').isNone = false := by
        cases hx : lookupA a k' with
        | none => rw [hx] at h1; cases h1
        | some _ => rfl
      simp only [h2, Bool.false_eq_true, if_false]
      exact ih (fun kv hkv => h kv (by simp [hkv]))

theorem diffOne_self_eq (k : String) (v : PyVal) (b : CTree)
    (hbk : lookupA b k = some v)
    (hrec : ∀ va, v = PyVal.dict va → dct_diff va va = []) :
    diffOne k v b = [] := by
  unfold diffOne
  rw [hbk]
  cases v with
  | dict va =>
      have h := hrec va rfl
      unfold dct_diff at h
      simp [h, dtreeEntry]
  | none => simp [pyBEq]
  | bool x => simp [pyBEq]
  | int x => simp [pyBEq]
  | str x => simp [pyBEq]
  | list l => simp [pyBEq, (pyBEqL_iff l l).mpr rfl]
  | set l => simp [pyBEq, (pyBEqL_iff l l).mpr rfl]

theorem dct_diff_self_sized :
    ∀ (n : Nat) (a : CTree), sizeOf a ≤ n → deepNodupT a = true →
      dct_diff a a = [] := by
  intro n
  induction n with
  | zero =>
      intro a hsz _
      cases a with
      | nil => simp [dct_diff, diffL, rOnly]
      | cons kv rest =>
          simp only [List.cons.sizeOf_spec] at hsz
          omega
  | succ m ih =>
      intro a hsz hwf
      have hwf' : strListNodup (a.map Prod.fst) = true ∧ deepNodupD a = true := by
        simpa [deepNodupT, deepNodupV, Bool.and_eq_true] using hwf
      have hmem : ∀ kv ∈ a, lookupA a kv.1 = some kv.2 := by
        intro kv hkv
        obtain ⟨k, v⟩ := kv
        exact lookupA_of_mem_nodup a k v hwf'.1 hkv
      have hr : rOnly a a = [] := by
        refine rOnly_self a a (fun kv hkv => ?_)
        rw [hmem kv hkv]
        rfl
      have hd : ∀ l : List (String × PyVal), (∀ kv ∈ l, kv ∈ a) → diffL l a = [] := by
        intro l
        induction l with
        | nil => intro _; simp [diffL]
        | cons kv rest ihl =>
            intro hsub
            obtain ⟨k, v⟩ := kv
            have hka : lookupA a k = some v := hmem (k, v) (hsub (k, v) (by simp))
            have hone : diffOne k v a = [] := by
              refine diffOne_self_eq k v a hka (fun va hva => ?_)
              subst hva
              have hmemv : (k, PyVal.dict va) ∈ a := hsub _ (by simp)
              have hszv := List.sizeOf_lt_of_mem hmemv
              simp only [Prod.mk.sizeOf_spec, PyVal.dict.sizeOf_spec] at hszv
              have hwfva : deepNodupT va = true :=
                deepNodupD_value a k (PyVal.dict va) hwf'.2 hmemv
              exact ih va (by omega) hwfva
            rw [show diffL ((k, v) :: rest) a = diffOne k v a ++ diffL rest a
                  from by rw [diffL],
                hone, ihl (fun kv hkv => hsub kv (by simp [hkv]))]
            rfl
      unfold dct_diff
      rw [hd a (fun kv h => h), hr]
      rfl

theorem dct_diff_self (a : CTree) (h : deepNodupT a = true) : dct_diff a a = [] :=
  dct_diff_self_sized (sizeOf a) a le_rfl h

theorem diffL_agree_none :
    ∀ (l b : CTree) (k : String) (v : PyVal),
      strListNodup (l.map Prod.fst) = true →
      deepNodupD l = true →
      (k, v) ∈ l → lookupA b k = some v →
      lookupD (diffL l b) k = Option.none := by
  intro l
  induction l with
  | nil => intro b k v _ _ hm _; cases hm
  | cons kv rest ih =>
      intro b k v hnd hdd hm hbk
      obtain ⟨k', v'⟩ := kv
      simp only [List.map_cons, strListNodup, Bool.and_eq_true,
        Bool.not_eq_true'] at hnd
      simp only [deepNodupD, Bool.and_eq_true] at hdd
      rw [show diffL ((k', v') :: rest) b = diffOne k' v' b ++ diffL rest b
            from by rw [diffL],
          lookupD_append]
      rcases List.mem_cons.mp hm with h1 | h2
      · rw [Prod.mk.injEq] at h1
        obtain ⟨rfl, rfl⟩ := h1
        have hone : diffOne k v b = [] := by
          refine diffOne_self_eq k v b hbk (fun va hva => ?_)
          subst hva
          exact dct_diff_self va hdd.1
        rw [hone]
        simp only [lookupD]
        exact lookupD_diffL_none rest b k
          (lookupA_none_forall rest k (lookupA_eq_none_of_not_contains rest k hnd.1))
      · have hk'ne : k' ≠ k := by
          intro he
          subst he
          have hmm : k' ∈ rest.map Prod.fst := List.mem_map_of_mem Prod.fst h2
          rw [strList_contains_of_mem _ _ hmm] at hnd
          cases hnd.1
        rw [lookupD_diffOne_ne k' v' b k hk'ne]
        exact ih b k v hnd.2 hdd.2 h2 hbk

theorem diffL_leftOnly :
    ∀ (l b : CTree) (k : String) (v : PyVal),
      strListNodup (l.map Prod.fst) = true →
      (k, v) ∈ l → lookupA b k = Option.none →
      lookupD (diffL l b) k = some (DiffNode.entry (DiffEntry.leftOnly v)) := by
  intro l
  induction l with
  | nil => intro b k v _ hm _; cases hm
  | cons kv rest ih =>
      intro b k v hnd hm hbk
      obtain ⟨k', v'⟩ := kv
      simp only [List.map_cons, strListNodup, Bool.and_eq_true,
        Bool.not_eq_true'] at hnd
      rw [show diffL ((k', v') :: rest) b = diffOne k' v' b ++ diffL rest b
            from by rw [diffL],
          lookupD_append]
      rcases List.mem_cons.mp hm with h1 | h2
      · rw [Prod.mk.injEq] at h1
        obtain ⟨rfl, rfl⟩ := h1
        have hone : diffOne k v b = [(k, DiffNode.entry (DiffEntry.leftOnly v))] := by
          simp [diffOne, hbk]
        rw [hone]
        simp [lookupD]
      · have hk'ne : k' ≠ k := by
          intro he
          subst he
          have hmm : k' ∈ rest.map Prod.fst := List.mem_map_of_mem Prod.fst h2
          rw [strList_contains_of_mem _ _ hmm] at hnd
          cases hnd.1
        rw [lookupD_diffOne_ne k' v' b k hk'ne]
        exact ih b k v hnd.2 h2 hbk

/-- C8 (the diff is modelled from the spec, `dct_diff` not being part of
the given source tree): the structural diff of two well-formed trees —
`Configuration.__sub__` applies it to the two resolved trees — holds no
entry at any key where the two trees agree (equal values present in both,
or absent from both); the diff of a tree with itself is empty; and a key
present only in the minuend yields a one-sided entry carrying exactly the
minuend's value and no subtrahend value (the `leftOnly` constructor has
no subtrahend field). -/
theorem claim_C8_diff (a b : CTree) (k : String) (v : PyVal)
    (hna : deepNodupT a = true) :
    dct_diff a a = []
    ∧ (lookupA a k = some v → lookupA b k = some v →
        lookupD (dct_diff a b) k = Option.none)
    ∧ (lookupA a k = Option.none → lookupA b k = Option.none →
        lookupD (dct_diff a b) k = Option.none)
    ∧ (lookupA a k = some v → lookupA b k = Option.none →
        lookupD (dct_diff a b) k =
          some (DiffNode.entry (DiffEntry.leftOnly v))) := by
  have hwf' : strListNodup (a.map Prod.fst) = true ∧ deepNodupD a = true := by
    simpa [deepNodupT, deepNodupV, Bool.and_eq_true] using hna
  refine ⟨dct_diff_self a hna, ?_, ?_, ?_⟩
  · intro ha hb
    unfold dct_diff
    rw [lookupD_append,
        diffL_agree_none a b k v hwf'.1 hwf'.2 (lookupA_mem a k v ha) hb]
    exact rOnly_none_left a b k (by rw [ha]; rfl)
  · intro ha hb
    unfold dct_diff
    rw [lookupD_append, lookupD_diffL_none a b k (lookupA_none_forall a k ha)]
    exact rOnly_none_right a b k hb
  · intro ha hb
    unfold dct_diff
    rw [lookupD_append, diffL_leftOnly a b k v hwf'.1 (lookupA_mem a k v ha) hb]

/-- Minuend tree for the C8 witness. -/
def aC8 : CTree := [("x", PyVal.int 1), ("t", PyVal.dict [("z", PyVal.int 5)])]

/-- Subtrahend tree for the C8 witness: agrees with the minuend at `t`
and lacks `x`. -/
def bC8 : CTree := [("t", PyVal.dict [("z", PyVal.int 5)])]

/-- Witness for C8 at concrete trees. -/
theorem claim_C8_witness :
    dct_diff aC8 aC8 = []
    ∧ lookupD (dct_diff aC8 bC8) "t" = Option.none
    ∧ lookupD (dct_diff aC8 bC8) "x" =
        some (DiffNode.entry (DiffEntry.leftOnly (PyVal.int 1))) :=
  ⟨(claim_C8_diff aC8 bC8 "x" (PyVal.int 1) (by decide)).1,
   (claim_C8_diff aC8 bC8 "t" (PyVal.dict [("z", PyVal.int 5)])
      (by decide)).2.1 (by decide) (by decide),
   (claim_C8_diff aC8 bC8 "x" (PyVal.int 1)
      (by decide)).2.2.2 (by decide) (by decide)⟩
